import Mathlib

/-!
Verification of the blendExpl chunked-container reader.

This file gives a shallow embedding of the core of `src/blendexpl.cpp`:
the chunk parser (`ParseFile` / its block loop), the schema-catalog
query functions (`GetFieldOffset`, `GetStructSizeByName`,
`GetFieldSizeByName`), the address-based reference resolver
(`FindFileBlockByOldAddr`) and the linked-chain navigation
(`TraversePoseChannels`).  Buffers are lists of byte values (natural
numbers below 256 in practice), machine integers are naturals, and the
fallible or possibly diverging operations return `Option` results
(`none` stands for the one loop in `GetFieldSizeByName` that does not
terminate on malformed names, and for the assertion failure on a
generic data chunk that appears before any owner).
-/

set_option maxHeartbeats 1000000

namespace BlendExpl

/-- Little-endian 32-bit read at `pos` (the four bytes after `pos`). -/
def readU32LE (bytes : List Nat) (pos : Nat) : Nat :=
  ((bytes.drop pos).take 4).foldr (fun b acc => b + 256 * acc) 0

/-- Little-endian 64-bit read at `pos` (the eight bytes after `pos`),
as used for the `oldMemoryAddress` fields and pointer-valued reads. -/
def readU64LE (bytes : List Nat) (pos : Nat) : Nat :=
  ((bytes.drop pos).take 8).foldr (fun b acc => b + 256 * acc) 0

/-- `MemorySpan.Align4`: round a buffer offset up to the next multiple
of four (the backing allocation is 16-byte aligned, so pointer
alignment agrees with offset alignment). -/
def align4 (n : Nat) : Nat := if n % 4 = 0 then n else n + (4 - n % 4)

/-- `blender::FileBlockDesc64`: the fixed chunk header. -/
structure FileBlockDesc64 where
  code : List Nat
  size : Nat
  oldMemoryAddress : Nat
  sdnaIndex : Nat
  count : Nat
deriving DecidableEq, Repr

/-- A file block as it is stored inside a `childBlocks` list.  In the
program a child block is a copy taken before any children are attached
to anything, so its own `childBlocks` vector is always empty and is
omitted here. -/
structure BareBlock where
  desc : FileBlockDesc64
  data : List Nat
deriving DecidableEq, Repr

/-- `blender::FileBlock`: header, payload view and owned child blocks. -/
structure FileBlock where
  desc : FileBlockDesc64
  data : List Nat
  childBlocks : List BareBlock
deriving DecidableEq, Repr

/-- `blender::HeaderID` = "BLENDER". -/
def HeaderID : List Nat := [66, 76, 69, 78, 68, 69, 82]

/-- `blender::BlockSDNA` = "DNA1". -/
def BlockSDNA : List Nat := [68, 78, 65, 49]

/-- `blender::BlockDATA` = "DATA". -/
def BlockDATA : List Nat := [68, 65, 84, 65]

/-- `blender::EOBMark` = "ENDB". -/
def EOBMark : List Nat := [69, 78, 68, 66]

/-- Decode the chunk header that starts at offset `pos`. -/
def readDesc (bytes : List Nat) (pos : Nat) : FileBlockDesc64 :=
  { code := (bytes.drop pos).take 4
    size := readU32LE bytes (pos + 4)
    oldMemoryAddress := readU64LE bytes (pos + 8)
    sdnaIndex := readU32LE bytes (pos + 16)
    count := readU32LE bytes (pos + 20) }

/-- The `FileBlock` built from the chunk whose header starts at `pos`:
header plus the following `size` payload bytes, no children yet. -/
def blockAt (bytes : List Nat) (pos : Nat) : FileBlock :=
  { desc := readDesc bytes pos
    data := (bytes.drop (pos + 24)).take (readDesc bytes pos).size
    childBlocks := [] }

/-- Forget the (empty) `childBlocks` of a freshly parsed block. -/
def stripBlock (b : FileBlock) : BareBlock := ⟨b.desc, b.data⟩

/-- View a bare block as a top-level block with no children. -/
def bareToBlock (c : BareBlock) : FileBlock := ⟨c.desc, c.data, []⟩

/-- In-place update of one list entry, as `m_blockArray.at(parentId)`
is updated; out-of-range indices leave the list unchanged (the program
never reaches that case on the success path). -/
def modifyIdx {α : Type} : List α → Nat → (α → α) → List α
  | [], _, _ => []
  | a :: rest, 0, f => f a :: rest
  | a :: rest, n + 1, f => a :: modifyIdx rest n f

/-- `childBlocks.emplace_back`. -/
def appendChild (b : FileBlock) (c : BareBlock) : FileBlock :=
  { b with childBlocks := b.childBlocks ++ [c] }

/-- The block-reading loop of `blendExpl::ParseFile`, fuelled.  State:
current offset, the index of the current owner block (`parentId`,
`none` before any non-generic block was seen) and the block array so
far.  A `DATA` block is pushed to the array and also appended to the
owner's children (`none` owner reproduces the failing
`assert(parentId != -1)`); an `ENDB` block is pushed and ends the
loop; every other block is pushed and becomes the new owner. -/
def parseLoop (bytes : List Nat) : Nat → Nat → Option Nat → List FileBlock → Option (List FileBlock)
  | 0, _, _, _ => none
  | fuel + 1, pos, parentId, acc =>
    if pos < bytes.length then
      let block := blockAt bytes pos
      let pos1 := align4 (pos + 24 + block.desc.size)
      if block.desc.code = BlockDATA then
        match parentId with
        | none => none
        | some p =>
            parseLoop bytes fuel pos1 (some p)
              (modifyIdx (acc ++ [block]) p (fun b => appendChild b (stripBlock block)))
      else if block.desc.code = EOBMark then some (acc ++ [block])
      else parseLoop bytes fuel pos1 (some ((acc ++ [block]).length - 1)) (acc ++ [block])
    else some acc

/-- The error taxonomy of the parser front end.  `FormatError` is the
magic mismatch, `UnsupportedVariant` the wrong pointer-width or
byte-order tag, `DataBeforeOwner` the internal-consistency failure on
a generic data chunk with no preceding owner. -/
inductive ParseError where
  | FormatError
  | UnsupportedVariant
  | DataBeforeOwner
deriving DecidableEq, Repr

/-- `blender::PointerSize`. -/
inductive PointerSize where
  | PTR_4
  | PTR_8
deriving DecidableEq, Repr

/-- `blender::Endianness`. -/
inductive Endianness where
  | LittleEndian
  | BigEndian
deriving DecidableEq, Repr

/-- `blendExpl::ParseFile` on an in-memory buffer: check the 7-byte
magic, decode the pointer-size tag (byte 7: `'_'` = 95 means 4-byte
pointers, anything else is taken as the 8-byte variant) and the
byte-order tag (byte 8: `'v'` = 118 means little-endian, anything
else big-endian), reject unsupported variants, then run the block
loop from offset 12. -/
def ParseFile (bytes : List Nat) : Except ParseError (List FileBlock) :=
  if bytes.take 7 = HeaderID then
    let ptrSize := if bytes.getD 7 0 = 95 then PointerSize.PTR_4 else PointerSize.PTR_8
    let endian := if bytes.getD 8 0 = 118 then Endianness.LittleEndian else Endianness.BigEndian
    if ptrSize = PointerSize.PTR_8 ∧ endian = Endianness.LittleEndian then
      match parseLoop bytes (bytes.length + 1) 12 none [] with
      | none => Except.error ParseError.DataBeforeOwner
      | some bs => Except.ok bs
    else Except.error ParseError.UnsupportedVariant
  else Except.error ParseError.FormatError

/-- Spec-side description (for the refinement statement of the chunk
grouping claim): the flat, ungrouped chunk sequence of the buffer in
file order, reading one header-delimited chunk after another and
stopping inclusively at the terminal `ENDB` marker.  This follows the
specification's words; it performs no grouping at all. -/
def specChunkSeq (bytes : List Nat) : Nat → Nat → Option (List BareBlock)
  | 0, _ => none
  | fuel + 1, pos =>
    if pos < bytes.length then
      let b := stripBlock (blockAt bytes pos)
      if b.desc.code = EOBMark then some [b]
      else
        match specChunkSeq bytes fuel (align4 (pos + 24 + b.desc.size)) with
        | none => none
        | some rest => some (b :: rest)
    else some []

/-- Rebuild a block array from its owner groups: each non-generic
owner followed by its children as top-level entries.  The block loop's
result always has this shape. -/
def flattenOwners : List FileBlock → List FileBlock
  | [] => []
  | p :: rest => p :: (p.childBlocks.map bareToBlock ++ flattenOwners rest)

/-- Well-formed owner groups: every owner is a non-generic chunk and
owns only generic data chunks. -/
def GroupsOK (owners : List FileBlock) : Prop :=
  ∀ p ∈ owners, ¬ (p.desc.code = BlockDATA) ∧ ∀ c ∈ p.childBlocks, c.desc.code = BlockDATA

/-- `blendExpl::TypeInfo`: a decoded type-name string together with the
declared byte length from the `TLEN` table. -/
structure TypeInfo where
  type : String
  length : Nat
deriving DecidableEq, Repr

/-- `blendExpl::FieldDesc`: indices into the type and name tables. -/
structure FieldDesc where
  typeIndex : Nat
  nameIndex : Nat
deriving DecidableEq, Repr

/-- `blendExpl::StructDesc`: the struct's own type index and its
ordered field list. -/
structure StructDesc where
  typeIndex : Nat
  fields : List FieldDesc
deriving DecidableEq, Repr

/-- The schema catalog: the `m_nameArray` / `m_typeArray` /
`m_structArray` tables of `blendExpl`, with the byte spans decoded to
the strings their `AsString` views denote. -/
structure Catalog where
  nameArray : List String
  typeArray : List TypeInfo
  structArray : List StructDesc
deriving DecidableEq, Repr

/-- The decoded name string of a field (an out-of-range name index,
which a built catalog never produces, reads as the empty string). -/
def decName (cat : Catalog) (fd : FieldDesc) : String :=
  cat.nameArray.getD fd.nameIndex ""

/-- The declared length of a field's type. -/
def decLen (cat : Catalog) (fd : FieldDesc) : Nat :=
  (cat.typeArray.getD fd.typeIndex ⟨"", 0⟩).length

/-- The type-name string of a struct entry. -/
def structTypeName (cat : Catalog) (sd : StructDesc) : String :=
  (cat.typeArray.getD sd.typeIndex ⟨"", 0⟩).type

/-- `fieldName.starts_with('*') || fieldName.starts_with("(*")`: the
name starts with `'*'`, or with `'('` followed by `'*'`. -/
def isPointerName (cs : List Char) : Bool :=
  match cs with
  | [] => false
  | c :: rest =>
    if c = '*' then true
    else if c = '(' then
      match rest with
      | [] => false
      | c2 :: _ => c2 = '*'
    else false

/-- The digit-reading inner loop of `GetFieldSizeByName`:
`num = num * 10 + (digit - '0')` while the head is a digit. -/
def parseNum : List Char → Nat → Nat × List Char
  | [], num => (num, [])
  | c :: rest, num =>
    if c.isDigit then parseNum rest (num * 10 + (c.toNat - 48)) else (num, c :: rest)

/-- The bracket-scanning loop of `GetFieldSizeByName`, from the first
`'['` of the name to the end of the view.  On a `'['` it reads the
following digits, multiplies them into the running element count and
skips one further character (the `']'`); a NUL byte ends the loop; any
other character makes the C++ loop spin forever, rendered here as
`none` (the fuel argument is immaterial whenever the loop
terminates). -/
def sizeCountLoop : Nat → List Char → Nat → Option Nat
  | _, [], count => some count
  | 0, _ :: _, _ => none
  | fuel + 1, c :: rest, count =>
    if c = '[' then
      sizeCountLoop fuel ((parseNum rest 0).2.drop 1) (count * (parseNum rest 0).1)
    else if c = Char.ofNat 0 then some count
    else none

/-- `blendExpl::GetFieldSizeByName` (the spec's `EffectiveSize`): a
name with a leading pointer marker occupies the 8-byte pointer width
instead of the declared type length, and every bracketed number in the
name multiplies the element count.  `none` marks the inputs on which
the C++ bracket loop does not terminate. -/
def GetFieldSizeByName (fieldName : String) (fieldLen : Nat) : Option Nat :=
  let cs := fieldName.data
  let length := if isPointerName cs then 8 else fieldLen
  let tailFromBracket := cs.dropWhile (fun c => c ≠ '[')
  if tailFromBracket.isEmpty then some length
  else (sizeCountLoop (cs.length + 1) tailFromBracket 1).map (fun count => length * count)

/-- The numeric value of a digit string, exactly as the digit loop of
`GetFieldSizeByName` accumulates it. -/
def digitsVal (d : List Char) : Nat :=
  d.foldl (fun acc c => acc * 10 + (c.toNat - 48)) 0

/-- The character sequence of a run of bracketed array dimensions:
`bracketGroups [['4'], ['4']]` is "[4][4]". -/
def bracketGroups (dims : List (List Char)) : List Char :=
  (dims.map (fun d => '[' :: (d ++ [']']))).flatten

/-- The effective size of one field entry of the catalog. -/
def fieldSize (cat : Catalog) (fd : FieldDesc) : Option Nat :=
  GetFieldSizeByName (decName cat fd) (decLen cat fd)

/-- The struct-search shared by `GetFieldOffset` and
`GetStructSizeByName`: the first entry of `m_structArray` whose
type-name string equals the requested name. -/
def findStruct (cat : Catalog) (sname : String) : Option StructDesc :=
  cat.structArray.find? (fun sd => sname == structTypeName cat sd)

/-- The field loop of `blendExpl::GetFieldOffset`: walk the fields in
declaration order, stopping with the accumulated offset as soon as a
field's decoded name equals `fname`; if no field matches, the loop
falls through and the accumulated total of all field sizes is
returned. -/
def fieldOffsetLoop (cat : Catalog) (fname : String) : List FieldDesc → Option Nat
  | [] => some 0
  | fd :: rest =>
    if fname = decName cat fd then some 0
    else
      match fieldSize cat fd, fieldOffsetLoop cat fname rest with
      | some s, some o => some (s + o)
      | _, _ => none

/-- `blendExpl::GetFieldOffset` (the spec's `OffsetOf`): find the
first struct whose type name equals `sname` and run the field loop;
when no struct matches, the offset stays 0. -/
def GetFieldOffset (cat : Catalog) (sname fname : String) : Option Nat :=
  match findStruct cat sname with
  | none => some 0
  | some sd => fieldOffsetLoop cat fname sd.fields

/-- `blendExpl::GetStructSizeByName`: the declared byte length of the
first struct whose type name equals `structName`, 0 when none does. -/
def GetStructSizeByName (cat : Catalog) (structName : String) : Nat :=
  match findStruct cat structName with
  | none => 0
  | some sd => (cat.typeArray.getD sd.typeIndex ⟨"", 0⟩).length

/-- The total of the effective sizes of a field list (what the
fall-through of `GetFieldOffset` computes for a missing field, and
what the layout-exactness of a well-formed schema compares with the
declared struct length). -/
def sumFieldSizes (cat : Catalog) : List FieldDesc → Option Nat
  | [] => some 0
  | fd :: rest =>
    match fieldSize cat fd, sumFieldSizes cat rest with
    | some s, some o => some (s + o)
    | _, _ => none

/-- `blendExpl::FindFileBlockByOldAddr` (the spec's `Resolve`):
address 0 resolves to nothing, otherwise the first block in parse
order whose recorded `oldMemoryAddress` equals the address. -/
def FindFileBlockByOldAddr (blocks : List FileBlock) (oldAddressOfBlock : Nat) : Option FileBlock :=
  if oldAddressOfBlock ≠ 0 then
    blocks.find? (fun b => b.desc.oldMemoryAddress == oldAddressOfBlock)
  else none

/-- `blendExpl::TraversePoseChannels` (the spec's `Navigate`),
fuelled: resolve the address, visit the block, read the pointer-wide
`"*next"` field of `"bPoseChannel"` from the payload and continue
while it is nonzero.  The returned list is the sequence of visited
blocks. -/
def TraversePoseChannels (blocks : List FileBlock) (cat : Catalog) : Nat → Nat → List FileBlock
  | 0, _ => []
  | fuel + 1, poseChanAddr =>
    match FindFileBlockByOldAddr blocks poseChanAddr with
    | none => []
    | some poseChannel =>
      let nextAddr :=
        readU64LE poseChannel.data ((GetFieldOffset cat "bPoseChannel" "*next").getD 0)
      poseChannel ::
        (if nextAddr ≠ 0 then TraversePoseChannels blocks cat fuel nextAddr else [])

/-- An acyclic `next`-chain: the addresses are nonzero, each resolves
(first-match) to the corresponding block, each block's `next` field at
offset `off` holds the following address, and the last block's `next`
field is the null address. -/
def ChainRel (blocks : List FileBlock) (off : Nat) : List Nat → List FileBlock → Prop
  | [], [] => True
  | a :: as, b :: bs =>
    a ≠ 0 ∧ FindFileBlockByOldAddr blocks a = some b ∧
      readU64LE b.data off = as.headD 0 ∧ ChainRel blocks off as bs
  | _, _ => False

/-! Concrete example data used by counterexamples and witnesses. -/

/-- A 24-byte chunk: tag "SC\0\0", empty payload, address 1. -/
def exChunkSC : List Nat :=
  [83, 67, 0, 0] ++ [0, 0, 0, 0] ++ [1, 0, 0, 0, 0, 0, 0, 0] ++ [0, 0, 0, 0] ++ [1, 0, 0, 0]

/-- A 24-byte chunk: tag "DATA", empty payload, address 2. -/
def exChunkDATA : List Nat :=
  [68, 65, 84, 65] ++ [0, 0, 0, 0] ++ [2, 0, 0, 0, 0, 0, 0, 0] ++ [0, 0, 0, 0] ++ [1, 0, 0, 0]

/-- A 24-byte chunk: tag "ENDB", empty payload. -/
def exChunkENDB : List Nat :=
  [69, 78, 68, 66] ++ [0, 0, 0, 0] ++ [0, 0, 0, 0, 0, 0, 0, 0] ++ [0, 0, 0, 0] ++ [0, 0, 0, 0]

/-- A complete little container: valid header ("BLENDER", tag '-',
tag 'v', version "300"), one scene chunk, one generic data chunk, the
terminal chunk. -/
def exBytes : List Nat := HeaderID ++ [45, 118, 51, 48, 48] ++ exChunkSC ++ exChunkDATA ++ exChunkENDB

/-- The parsed form of the scene chunk of `exBytes`, owning the data
chunk. -/
def exBlockSC : FileBlock :=
  { desc := ⟨[83, 67, 0, 0], 0, 1, 0, 1⟩, data := [],
    childBlocks := [⟨⟨[68, 65, 84, 65], 0, 2, 0, 1⟩, []⟩] }

/-- The parsed form of the data chunk of `exBytes` as a top-level
entry. -/
def exBlockDATA : FileBlock :=
  { desc := ⟨[68, 65, 84, 65], 0, 2, 0, 1⟩, data := [], childBlocks := [] }

/-- The parsed form of the terminal chunk of `exBytes`. -/
def exBlockENDB : FileBlock :=
  { desc := ⟨[69, 78, 68, 66], 0, 0, 0, 0⟩, data := [], childBlocks := [] }

/-- A buffer whose 7-byte magic reads "NOTABLE". -/
def badMagicBytes : List Nat := [78, 79, 84, 65, 66, 76, 69] ++ [45, 118, 51, 48, 48]

/-- A header announcing 4-byte pointers (tag '_' = 95). -/
def ptr4Bytes : List Nat := HeaderID ++ [95, 118, 51, 48, 48]

/-- A header whose pointer-size tag is 'X' = 88 — neither the 8-byte
tag '-' = 45 nor the 4-byte tag '_' = 95. -/
def ptrXBytes : List Nat := HeaderID ++ [88, 118, 51, 48, 48]

/-- A one-struct catalog: `struct S { int a; }` with `int` 4 bytes
long.  `S` has no field named "b". -/
def exCat : Catalog :=
  { nameArray := ["a", "b"]
    typeArray := [⟨"S", 8⟩, ⟨"int", 4⟩]
    structArray := [⟨0, [⟨1, 0⟩]⟩] }

/-- A two-field catalog for the layout claims:
`struct Foo { int a; int b[2]; }`, `Foo` declared 12 bytes long. -/
def exCatFoo : Catalog :=
  { nameArray := ["a", "b[2]"]
    typeArray := [⟨"Foo", 12⟩, ⟨"int", 4⟩]
    structArray := [⟨0, [⟨1, 0⟩, ⟨1, 1⟩]⟩] }

/-- A catalog whose single struct `bPoseChannel` starts with its
`*next` field, so that the `*next` offset is 0. -/
def exCatPose : Catalog :=
  { nameArray := ["*next"]
    typeArray := [⟨"bPoseChannel", 8⟩]
    structArray := [⟨0, [⟨0, 0⟩]⟩] }

/-- Chain block 1: address 1, payload holding the 64-bit value 2 (the
address of the next link). -/
def exNav1 : FileBlock :=
  { desc := ⟨[68, 65, 84, 65], 8, 1, 0, 1⟩, data := [2, 0, 0, 0, 0, 0, 0, 0], childBlocks := [] }

/-- Chain block 2: address 2, payload holding the 64-bit value 0 (the
null terminator of the chain). -/
def exNav2 : FileBlock :=
  { desc := ⟨[68, 65, 84, 65], 8, 2, 0, 1⟩, data := [0, 0, 0, 0, 0, 0, 0, 0], childBlocks := [] }

/-- A block sharing the address of `exNav1` but with different
contents, to exercise the first-wins collision rule. -/
def exNav1Dup : FileBlock :=
  { desc := ⟨[79, 66, 0, 0], 8, 1, 0, 1⟩, data := [9, 9, 9, 9, 9, 9, 9, 9], childBlocks := [] }

/-! General helper lemmas about `List.find?` (first-match search). -/

theorem find?_eq_none_of_all_false {α : Type} (p : α → Bool) :
    ∀ l : List α, (∀ x ∈ l, p x = false) → l.find? p = none := by
  intro l h
  induction l with
  | nil => rfl
  | cons a rest ih =>
    have ha : p a = false := h a (List.mem_cons_self a rest)
    simp only [List.find?, ha]
    exact ih (fun x hx => h x (List.mem_cons_of_mem a hx))

theorem find?_mem_of_exists {α : Type} (p : α → Bool) :
    ∀ (l : List α) (x : α), x ∈ l → p x = true → ∃ y, l.find? p = some y ∧ p y = true := by
  intro l
  induction l with
  | nil => intro x hx; cases hx
  | cons a rest ih =>
    intro x hx hpx
    by_cases hpa : p a = true
    · exact ⟨a, by simp [List.find?, hpa], hpa⟩
    · have hpa' : p a = false := by simpa using hpa
      rcases List.mem_cons.mp hx with h | h
      · subst h; exact absurd hpx hpa
      · rcases ih x h hpx with ⟨y, hy, hpy⟩
        exact ⟨y, by simp [List.find?, hpa', hy], hpy⟩

theorem find?_first {α : Type} (p : α → Bool) :
    ∀ (l : List α) (i : Nat) (h : i < l.length),
      p (l.get ⟨i, h⟩) = true →
      (∀ (j : Nat) (hj : j < i), p (l.get ⟨j, Nat.lt_trans hj h⟩) = false) →
      l.find? p = some (l.get ⟨i, h⟩) := by
  intro l
  induction l with
  | nil => intro i h; cases h
  | cons a rest ih =>
    intro i h hp hbefore
    cases i with
    | zero => simpa [List.find?] using by simp only [List.get] at hp; simp [List.find?, hp]
    | succ k =>
      have hpa : p a = false := hbefore 0 (Nat.succ_pos k)
      have hk : k < rest.length := Nat.lt_of_succ_lt_succ h
      have := ih k hk (by simpa using hp)
        (fun j hj => by simpa using hbefore (j + 1) (Nat.succ_lt_succ hj))
      simp [List.find?, hpa, this]

/-- If no field of the list has decoded name `fname`, the offset loop
falls through and returns the total of all field sizes. -/
theorem fieldOffsetLoop_miss (cat : Catalog) (fname : String) :
    ∀ fields : List FieldDesc, (∀ fd ∈ fields, decName cat fd ≠ fname) →
      fieldOffsetLoop cat fname fields = sumFieldSizes cat fields := by
  intro fields h
  induction fields with
  | nil => rfl
  | cons fd rest ih =>
    have hfd : decName cat fd ≠ fname := h fd (List.mem_cons_self fd rest)
    have hne : ¬ fname = decName cat fd := fun hc => hfd hc.symm
    simp only [fieldOffsetLoop, sumFieldSizes, if_neg hne]
    rw [ih (fun x hx => h x (List.mem_cons_of_mem fd hx))]

/-- A pointer marker at the start of a name survives appending more
characters. -/
theorem isPointerName_append (pfx ys : List Char) (h : isPointerName pfx = true) :
    isPointerName (pfx ++ ys) = true := by
  cases pfx with
  | nil => exact absurd h (by decide)
  | cons c rest =>
    simp only [isPointerName, List.cons_append] at h ⊢
    by_cases hc : c = '*'
    · simp [hc]
    · simp only [if_neg hc] at h ⊢
      by_cases hp : c = '('
      · simp only [if_pos hp] at h ⊢
        cases rest with
        | nil => exact absurd h (by decide)
        | cons c2 r2 => simpa using h
      · simp only [if_neg hp] at h
        exact absurd h (by decide)

/-- `dropWhile` over an append whose first part satisfies the
predicate throughout skips the whole first part. -/
theorem dropWhile_append_of_all {α : Type} (p : α → Bool) :
    ∀ xs ys : List α, (∀ x ∈ xs, p x = true) →
      List.dropWhile p (xs ++ ys) = List.dropWhile p ys := by
  intro xs ys h
  induction xs with
  | nil => rfl
  | cons x rest ih =>
    rw [List.cons_append, List.dropWhile_cons_of_pos (h x (List.mem_cons_self x rest))]
    exact ih (fun y hy => h y (List.mem_cons_of_mem x hy))

/-- The digit loop on a digit string followed by a closing bracket:
it accumulates exactly the digits and stops at the bracket. -/
theorem parseNum_digits :
    ∀ (d rest : List Char) (acc : Nat), (∀ c ∈ d, c.isDigit = true) →
      parseNum (d ++ ']' :: rest) acc =
        (d.foldl (fun a c => a * 10 + (c.toNat - 48)) acc, ']' :: rest) := by
  intro d
  induction d with
  | nil => intro rest acc _; simp [parseNum]
  | cons c dtl ih =>
    intro rest acc h
    have hc : c.isDigit = true := h c (List.mem_cons_self c dtl)
    simp only [List.cons_append, parseNum, hc, if_pos, List.foldl_cons]
    exact ih rest (acc * 10 + (c.toNat - 48)) (fun x hx => h x (List.mem_cons_of_mem c hx))

/-- The bracket loop on a well-formed run of bracket groups
multiplies the running count by every group's value and terminates,
for any fuel at least the length of the run. -/
theorem sizeCountLoop_groups :
    ∀ (dims : List (List Char)) (fuel count : Nat),
      (∀ d ∈ dims, ∀ c ∈ d, c.isDigit = true) →
      (bracketGroups dims).length ≤ fuel →
      sizeCountLoop fuel (bracketGroups dims) count =
        some (count * (dims.map digitsVal).prod) := by
  intro dims
  induction dims with
  | nil => intro fuel count _ _; simp [bracketGroups, sizeCountLoop]
  | cons d rest ih =>
    intro fuel count h hfuel
    have hgroups : bracketGroups (d :: rest) = '[' :: (d ++ ']' :: bracketGroups rest) := by
      simp [bracketGroups, List.flatten]
    rw [hgroups] at hfuel ⊢
    obtain ⟨f, rfl⟩ : ∃ f, fuel = f + 1 := ⟨fuel - 1, by simp at hfuel; omega⟩
    have hd : ∀ c ∈ d, c.isDigit = true := h d (List.mem_cons_self d rest)
    simp only [sizeCountLoop, if_pos rfl, if_true,
      parseNum_digits d (bracketGroups rest) 0 hd]
    have hlen : (bracketGroups rest).length ≤ f := by
      simp only [List.length_cons, List.length_append] at hfuel
      omega
    rw [show ((']' :: bracketGroups rest).drop 1) = bracketGroups rest from rfl]
    rw [show List.foldl (fun a c => a * 10 + (c.toNat - 48)) 0 d = digitsVal d from rfl]
    rw [ih f (count * digitsVal d) (fun x hx c hc => h x (List.mem_cons_of_mem d hx) c hc) hlen]
    simp [Nat.mul_assoc]

/-- Splitting a field-size total over an append. -/
theorem sumFieldSizes_append (cat : Catalog) :
    ∀ xs ys : List FieldDesc,
      sumFieldSizes cat (xs ++ ys) =
        match sumFieldSizes cat xs, sumFieldSizes cat ys with
        | some a, some b => some (a + b)
        | _, _ => none := by
  intro xs ys
  induction xs with
  | nil =>
    cases hy : sumFieldSizes cat ys <;> simp [sumFieldSizes, hy]
  | cons fd xs ih =>
    rw [List.cons_append]
    simp only [sumFieldSizes, ih]
    cases hf : fieldSize cat fd <;> cases hx : sumFieldSizes cat xs <;>
      cases hy : sumFieldSizes cat ys <;> simp [Nat.add_assoc]

/-- A field list with defined sizes has a defined total. -/
theorem sumFieldSizes_defined (cat : Catalog) :
    ∀ fields : List FieldDesc, (∀ fd ∈ fields, ∃ s, fieldSize cat fd = some s) →
      ∃ t, sumFieldSizes cat fields = some t := by
  intro fields h
  induction fields with
  | nil => exact ⟨0, rfl⟩
  | cons fd rest ih =>
    obtain ⟨s, hs⟩ := h fd (List.mem_cons_self fd rest)
    obtain ⟨t, ht⟩ := ih (fun x hx => h x (List.mem_cons_of_mem fd hx))
    exact ⟨s + t, by simp [sumFieldSizes, hs, ht]⟩

/-- A nonempty field list with defined positive sizes has a positive
total. -/
theorem sumFieldSizes_pos (cat : Catalog) :
    ∀ fields : List FieldDesc,
      (∀ fd ∈ fields, ∃ s, fieldSize cat fd = some s ∧ 0 < s) → fields ≠ [] →
      ∃ t, sumFieldSizes cat fields = some t ∧ 0 < t := by
  intro fields h hne
  cases fields with
  | nil => exact absurd rfl hne
  | cons fd rest =>
    obtain ⟨s, hs, hspos⟩ := h fd (List.mem_cons_self fd rest)
    obtain ⟨t, ht⟩ := sumFieldSizes_defined cat rest
      (fun x hx => ((h x (List.mem_cons_of_mem fd hx)).imp fun s hs => hs.1))
    exact ⟨s + t, by simp [sumFieldSizes, hs, ht], by omega⟩

/-- Strict growth of prefix totals: with defined positive sizes, the
total over `take j` is strictly below the total over `take k` when
`j < k ≤ length`. -/
theorem sumFieldSizes_take_strict (cat : Catalog) (fields : List FieldDesc)
    (hpos : ∀ fd ∈ fields, ∃ s, fieldSize cat fd = some s ∧ 0 < s)
    (j k : Nat) (hjk : j < k) (hk : k ≤ fields.length) :
    ∃ oj ok, sumFieldSizes cat (fields.take j) = some oj ∧
      sumFieldSizes cat (fields.take k) = some ok ∧ oj < ok := by
  obtain ⟨oj, hoj⟩ := sumFieldSizes_defined cat (fields.take j)
    (fun fd hfd => ((hpos fd (List.take_subset j fields hfd)).imp fun s hs => hs.1))
  have hdecomp : fields.take k = fields.take j ++ (fields.take k).drop j := by
    conv_lhs => rw [← List.take_append_drop j (fields.take k)]
    rw [List.take_take, Nat.min_eq_left (Nat.le_of_lt hjk)]
  have hmidpos : ∀ fd ∈ (fields.take k).drop j, ∃ s, fieldSize cat fd = some s ∧ 0 < s :=
    fun fd hfd => hpos fd (List.take_subset k fields (List.drop_subset j _ hfd))
  have hmidne : (fields.take k).drop j ≠ [] := by
    intro hc
    have hlen : ((fields.take k).drop j).length = k - j := by
      simp [List.length_drop, List.length_take, Nat.min_eq_left hk]
    rw [hc] at hlen
    simp at hlen
    omega
  obtain ⟨m, hm, hmpos⟩ := sumFieldSizes_pos cat _ hmidpos hmidne
  refine ⟨oj, oj + m, hoj, ?_, by omega⟩
  rw [hdecomp, sumFieldSizes_append, hoj, hm]

/-- The offset loop stopped at the first occurrence of a field name
returns the total size of the preceding fields. -/
theorem fieldOffsetLoop_at (cat : Catalog) :
    ∀ (fields : List FieldDesc) (k : Nat) (hk : k < fields.length),
      (∀ (j : Nat) (hj : j < k),
        decName cat (fields.get ⟨j, Nat.lt_trans hj hk⟩) ≠ decName cat (fields.get ⟨k, hk⟩)) →
      fieldOffsetLoop cat (decName cat (fields.get ⟨k, hk⟩)) fields =
        sumFieldSizes cat (fields.take k) := by
  intro fields
  induction fields with
  | nil => intro k hk; cases hk
  | cons fd rest ih =>
    intro k hk hbefore
    cases k with
    | zero =>
      simp [fieldOffsetLoop, sumFieldSizes]
    | succ k' =>
      have hk' : k' < rest.length := Nat.lt_of_succ_lt_succ hk
      have hhead := hbefore 0 (Nat.succ_pos k')
      simp only [List.get_cons_succ, List.get_cons_zero] at hhead ⊢
      have hne : ¬ (decName cat (rest.get ⟨k', hk'⟩) = decName cat fd) :=
        fun hc => hhead hc.symm
      rw [List.take_succ_cons]
      simp only [fieldOffsetLoop, sumFieldSizes, if_neg hne]
      rw [ih k' hk'
        (fun j hj => by simpa using hbefore (j + 1) (Nat.succ_lt_succ hj))]

/-- `flattenOwners` distributes over append. -/
theorem flattenOwners_append :
    ∀ xs ys : List FileBlock, flattenOwners (xs ++ ys) = flattenOwners xs ++ flattenOwners ys := by
  intro xs ys
  induction xs with
  | nil => rfl
  | cons p rest ih => simp [flattenOwners, ih]

/-- `GroupsOK` over an append. -/
theorem GroupsOK_append {xs ys : List FileBlock} (hx : GroupsOK xs) (hy : GroupsOK ys) :
    GroupsOK (xs ++ ys) := by
  intro p hp
  rcases List.mem_append.mp hp with h | h
  · exact hx p h
  · exact hy p h

/-- Updating the entry right after a known prefix. -/
theorem modifyIdx_append {α : Type} :
    ∀ (xs : List α) (y : α) (zs : List α) (f : α → α),
      modifyIdx (xs ++ y :: zs) xs.length f = xs ++ f y :: zs := by
  intro xs y zs f
  induction xs with
  | nil => rfl
  | cons x rest ih => simp [modifyIdx, ih]

/-- A block with no children survives the strip/rebuild round trip. -/
theorem bareToBlock_stripBlock (b : FileBlock) (h : b.childBlocks = []) :
    bareToBlock (stripBlock b) = b := by
  cases b with
  | mk desc data children => cases h; rfl

/-- Stripping rebuilt children gives the children back. -/
theorem map_strip_bare (cs : List BareBlock) : (cs.map bareToBlock).map stripBlock = cs := by
  induction cs with
  | nil => rfl
  | cons c rest ih => simp [bareToBlock, stripBlock, ih]

/-- Claim C1, counterexample.  The catalog `exCat` contains exactly
one struct, named "S", whose only field is named "a"; the claim says
`OffsetOf("S", "b")` is 0 because "S" has no field named "b", but the
code returns the accumulated size of all fields (4), not 0. -/
theorem C1_counterexample :
    exCat.structArray.map (structTypeName exCat) = ["S"] ∧
    (exCat.structArray.getD 0 ⟨0, []⟩).fields.map (decName exCat) = ["a"] ∧
    GetFieldOffset exCat "S" "b" = some 4 ∧
    GetFieldOffset exCat "S" "b" ≠ some 0 := by
  refine ⟨by decide, by decide, by decide, by decide⟩

/-- Claim C1 (amended): `OffsetOf(S, f)` returns 0 whenever no struct
named `S` exists in the catalog.  When the first struct named `S`
exists but has no field whose decoded name equals `f`, the lookup
falls through silently and returns the accumulated sum of the
effective sizes of all of that struct's fields (the struct's computed
size) — still not an error, but not 0 in general. -/
theorem C1_offset_fallback (cat : Catalog) (S f : String) :
    ((∀ sd ∈ cat.structArray, structTypeName cat sd ≠ S) → GetFieldOffset cat S f = some 0) ∧
    (∀ sd, findStruct cat S = some sd → (∀ fd ∈ sd.fields, decName cat fd ≠ f) →
      GetFieldOffset cat S f = sumFieldSizes cat sd.fields) := by
  constructor
  · intro h
    have hnone : findStruct cat S = none := by
      apply find?_eq_none_of_all_false
      intro sd hsd
      rw [beq_eq_false_iff_ne]
      exact fun hc => h sd hsd hc.symm
    unfold GetFieldOffset
    rw [hnone]
  · intro sd hsd hmiss
    unfold GetFieldOffset
    rw [hsd]
    exact fieldOffsetLoop_miss cat f sd.fields hmiss

/-- Witness for C1: both branches of the amended statement evaluated
on concrete catalogs. -/
theorem C1_offset_fallback_witness :
    GetFieldOffset exCat "S" "b" = sumFieldSizes exCat [⟨1, 0⟩] ∧
    GetFieldOffset exCat "T" "x" = some 0 := by
  constructor
  · exact (C1_offset_fallback exCat "S" "b").2 ⟨0, [⟨1, 0⟩]⟩ (by decide) (by decide)
  · exact (C1_offset_fallback exCat "T" "x").1 (by decide)

/-- Claim C4: `EffectiveSize` decodes array and pointer markers:
`EffectiveSize("co[3]", 4) = 12`, `EffectiveSize("mat[4][4]", 4) = 64`
and `EffectiveSize("*data", L) = 8` for every declared type length
`L`. -/
theorem C4_array_decoding :
    GetFieldSizeByName "co[3]" 4 = some 12 ∧
    GetFieldSizeByName "mat[4][4]" 4 = some 64 ∧
    ∀ L : Nat, GetFieldSizeByName "*data" L = some 8 :=
  ⟨by decide, by decide, fun _ => rfl⟩

/-- Claim C5: `Resolve(0)` yields no chunk; every chunk with a
nonzero recorded address is resolvable to a chunk with that same
address; and on address collisions the first chunk in parse order
wins. -/
theorem C5_resolve (blocks : List FileBlock) :
    FindFileBlockByOldAddr blocks 0 = none ∧
    (∀ b ∈ blocks, b.desc.oldMemoryAddress ≠ 0 →
      ∃ b', FindFileBlockByOldAddr blocks b.desc.oldMemoryAddress = some b' ∧
        b'.desc.oldMemoryAddress = b.desc.oldMemoryAddress) ∧
    (∀ a : Nat, a ≠ 0 → ∀ (i : Nat) (h : i < blocks.length),
      (blocks.get ⟨i, h⟩).desc.oldMemoryAddress = a →
      (∀ (j : Nat) (hj : j < i), (blocks.get ⟨j, Nat.lt_trans hj h⟩).desc.oldMemoryAddress ≠ a) →
      FindFileBlockByOldAddr blocks a = some (blocks.get ⟨i, h⟩)) := by
  refine ⟨by simp [FindFileBlockByOldAddr], ?_, ?_⟩
  · intro b hb hne
    have hp : (b.desc.oldMemoryAddress == b.desc.oldMemoryAddress) = true := by simp
    rcases find?_mem_of_exists (fun x => x.desc.oldMemoryAddress == b.desc.oldMemoryAddress)
      blocks b hb hp with ⟨y, hy, hpy⟩
    exact ⟨y, by simp [FindFileBlockByOldAddr, hne, hy], by simpa using hpy⟩
  · intro a ha i h hi hbefore
    have hfind := find?_first (fun b => b.desc.oldMemoryAddress == a) blocks i h
      (by simpa using hi) (fun j hj => by rw [beq_eq_false_iff_ne]; exact hbefore j hj)
    simp [FindFileBlockByOldAddr, ha, hfind]

/-- Witness for C5: the null address resolves to nothing, and on the
collision list `[exNav1, exNav1Dup]` (both at address 1) the first
block wins. -/
theorem C5_resolve_witness :
    FindFileBlockByOldAddr [exNav1, exNav1Dup] 0 = none ∧
    FindFileBlockByOldAddr [exNav1, exNav1Dup] 1 = some exNav1 := by
  constructor
  · exact (C5_resolve [exNav1, exNav1Dup]).1
  · have h := (C5_resolve [exNav1, exNav1Dup]).2.2 1 (by decide) 0 (by decide) (by decide)
      (fun j hj => absurd hj (Nat.not_lt_zero j))
    exact h

/-- Claim C10: `GetStructSizeByName` returns 0 when no struct in the
catalog has type name `S`, and otherwise the declared byte length of
the first struct (by catalog order) whose type name equals `S`. -/
theorem C10_struct_size (cat : Catalog) (S : String) :
    ((∀ sd ∈ cat.structArray, structTypeName cat sd ≠ S) → GetStructSizeByName cat S = 0) ∧
    (∀ (i : Nat) (h : i < cat.structArray.length),
      structTypeName cat (cat.structArray.get ⟨i, h⟩) = S →
      (∀ (j : Nat) (hj : j < i), structTypeName cat (cat.structArray.get ⟨j, Nat.lt_trans hj h⟩) ≠ S) →
      GetStructSizeByName cat S =
        (cat.typeArray.getD (cat.structArray.get ⟨i, h⟩).typeIndex ⟨"", 0⟩).length) := by
  constructor
  · intro h
    have hnone : findStruct cat S = none := by
      apply find?_eq_none_of_all_false
      intro sd hsd
      rw [beq_eq_false_iff_ne]
      exact fun hc => h sd hsd hc.symm
    unfold GetStructSizeByName
    rw [hnone]
  · intro i h hname hbefore
    have hfind : findStruct cat S = some (cat.structArray.get ⟨i, h⟩) :=
      find?_first _ cat.structArray i h (by rw [beq_iff_eq]; exact hname.symm)
        (fun j hj => by rw [beq_eq_false_iff_ne]; exact fun hc => hbefore j hj hc.symm)
    unfold GetStructSizeByName
    rw [hfind]

/-- Witness for C10: the struct "S" of `exCat` reports its declared
8-byte length, and a missing struct name reports 0. -/
theorem C10_struct_size_witness :
    GetStructSizeByName exCat "S" = 8 ∧ GetStructSizeByName exCat "T" = 0 := by
  constructor
  · have h := (C10_struct_size exCat "S").2 0 (by decide) (by decide)
      (fun j hj => absurd hj (Nat.not_lt_zero j))
    exact h.trans (by decide)
  · exact (C10_struct_size exCat "T").1 (by decide)

/-- Claim C6, counterexample.  `ptrXBytes` carries pointer-size tag
'X' = 88, which is not the 8-byte tag '-' = 45 (nor the 4-byte tag
'_' = 95); the claim demands `UnsupportedVariant`, but the parser
treats every tag other than '_' as the 8-byte variant and succeeds. -/
theorem C6_counterexample :
    ptrXBytes.getD 7 0 ≠ 45 ∧ ptrXBytes.getD 7 0 ≠ 95 ∧
    ParseFile ptrXBytes ≠ Except.error ParseError.UnsupportedVariant ∧
    ParseFile ptrXBytes = Except.ok [] := by
  refine ⟨by decide, by decide, ?_, by rfl⟩
  intro hc
  rw [show ParseFile ptrXBytes = Except.ok [] from rfl] at hc
  exact Except.noConfusion hc

/-- Claim C6 (amended): a buffer whose 7-byte magic does not match
fails with `FormatError` (no chunks are returned); with the magic
matching, parsing fails with `UnsupportedVariant` exactly when the
pointer-width tag is the 4-byte tag '_' = 95 or the byte-order tag is
not the little-endian tag 'v' = 118 — any other pointer-width tag
byte is treated as the 8-byte variant (an assertion in the code
expects only the two recognized tag bytes). -/
theorem C6_parse_errors (bytes : List Nat) :
    (bytes.take 7 ≠ HeaderID → ParseFile bytes = Except.error ParseError.FormatError) ∧
    (bytes.take 7 = HeaderID →
      (ParseFile bytes = Except.error ParseError.UnsupportedVariant ↔
        (bytes.getD 7 0 = 95 ∨ bytes.getD 8 0 ≠ 118))) := by
  constructor
  · intro h
    unfold ParseFile
    rw [if_neg h]
  · intro h
    unfold ParseFile
    rw [if_pos h]
    simp only [List.getD_eq_getElem?_getD]
    by_cases h7 : bytes[7]?.getD 0 = 95
    · simp [h7]
    · by_cases h8 : bytes[8]?.getD 0 = 118
      · cases hp : parseLoop bytes (bytes.length + 1) 12 none [] with
        | none => simp [h7, h8, hp]
        | some bs => simp [h7, h8, hp]
      · simp [h7, h8]

/-- Witness for C6: the spec's negative scenarios, magic "NOTABLE"
and the explicit 4-byte pointer tag. -/
theorem C6_parse_errors_witness :
    ParseFile badMagicBytes = Except.error ParseError.FormatError ∧
    ParseFile ptr4Bytes = Except.error ParseError.UnsupportedVariant := by
  constructor
  · exact (C6_parse_errors badMagicBytes).1 (by decide)
  · exact ((C6_parse_errors ptr4Bytes).2 (by decide)).mpr (Or.inl (by decide))

/-- Claim C9: a chunk whose tag equals the terminal "ENDB" marker
ends the block loop: the chunk itself is appended to the block array
(consumed, and not an error) and nothing after it is read — the loop
returns immediately, whatever bytes follow. -/
theorem C9_endb_stops (bytes : List Nat) (fuel pos : Nat) (parentId : Option Nat)
    (acc : List FileBlock) :
    pos < bytes.length → (readDesc bytes pos).code = EOBMark →
    parseLoop bytes (fuel + 1) pos parentId acc = some (acc ++ [blockAt bytes pos]) := by
  intro hpos hcode
  have hdesc : (blockAt bytes pos).desc.code = EOBMark := hcode
  have hne : ¬ (blockAt bytes pos).desc.code = BlockDATA := by
    rw [hdesc]; decide
  unfold parseLoop
  rw [if_pos hpos]
  simp only [if_neg hne, if_pos hdesc]

/-- Witness for C9: in the concrete container `exBytes` the terminal
chunk sits at offset 60; the loop entered there returns at once with
just that chunk appended. -/
theorem C9_endb_stops_witness :
    parseLoop exBytes 5 60 (some 0) [] = some [blockAt exBytes 60] := by
  have h := C9_endb_stops exBytes 4 60 (some 0) [] (by decide) (by decide)
  simpa using h

/-- Claim C8: for an acyclic `next`-chain (nonzero addresses, each
resolving to its block, each block's `next` field holding the
following address, the last holding 0), the navigation visits exactly
the blocks of the chain, in chain order, and terminates: any fuel of
at least the chain length returns the full visit list. -/
theorem C8_navigation (blocks : List FileBlock) (cat : Catalog) (off : Nat)
    (hoff : GetFieldOffset cat "bPoseChannel" "*next" = some off) :
    ∀ (as : List Nat) (a : Nat) (b : FileBlock) (bs : List FileBlock),
      ChainRel blocks off (a :: as) (b :: bs) →
      ∀ fuel : Nat, as.length + 1 ≤ fuel →
        TraversePoseChannels blocks cat fuel a = b :: bs := by
  intro as
  induction as with
  | nil =>
    intro a b bs hc fuel hfuel
    obtain ⟨ha, hfind, hread, hrest⟩ := hc
    cases bs with
    | cons b' bs' => exact (hrest : False).elim
    | nil =>
      obtain ⟨f, rfl⟩ : ∃ f, fuel = f + 1 := ⟨fuel - 1, by omega⟩
      unfold TraversePoseChannels
      rw [hfind]
      simp only [hoff, Option.getD_some]
      simp only [List.headD] at hread
      simp [hread]
  | cons a' as' ih =>
    intro a b bs hc fuel hfuel
    obtain ⟨ha, hfind, hread, hrest⟩ := hc
    cases bs with
    | nil => exact (hrest : False).elim
    | cons b' bs' =>
      obtain ⟨f, rfl⟩ : ∃ f, fuel = f + 1 := ⟨fuel - 1, by omega⟩
      have ha' : a' ≠ 0 := hrest.1
      have hIH := ih a' b' bs' hrest f (by simp only [List.length_cons] at hfuel; omega)
      unfold TraversePoseChannels
      rw [hfind]
      simp only [hoff, Option.getD_some]
      simp only [List.headD] at hread
      simp [hread, ha', hIH]

/-- Witness for C8: a concrete two-link chain (addresses 1 then 2,
the second block's field null); navigation with fuel 2 visits exactly
the two blocks in order. -/
theorem C8_navigation_witness :
    ChainRel [exNav1, exNav2] 0 [1, 2] [exNav1, exNav2] ∧
    TraversePoseChannels [exNav1, exNav2] exCatPose 2 1 = [exNav1, exNav2] := by
  have hchain : ChainRel [exNav1, exNav2] 0 [1, 2] [exNav1, exNav2] :=
    ⟨by decide, by decide, by decide, by decide, by decide, by decide, trivial⟩
  exact ⟨hchain, C8_navigation [exNav1, exNav2] exCatPose 0 (by decide) [2] 1 exNav1 [exNav2]
    hchain 2 (by decide)⟩

/-- Claim C7, counterexample.  "*data[3]" begins with '*' and
carries a bracketed array suffix, but `EffectiveSize` returns
8 × 3 = 24, not the bare pointer width 8: the array multiplier is
still applied to the pointer-wide element. -/
theorem C7_counterexample :
    isPointerName ("*data[3]".data) = true ∧
    GetFieldSizeByName "*data[3]" 4 = some 24 ∧
    GetFieldSizeByName "*data[3]" 4 ≠ some 8 :=
  ⟨by decide, by decide, by decide⟩

/-- Claim C7 (amended): for every field name formed of a
pointer-marked prefix (beginning with '*' or '(*', containing no
bracket) followed by bracketed array dimensions, `EffectiveSize`
returns the canonical 8-byte pointer width multiplied by the product
of the array dimensions, for every declared type length: the pointer
marker overrides the declared type length as the element size, but
the array suffix still multiplies it. -/
theorem C7_ptr_array (pfx : List Char) (dims : List (List Char)) (L : Nat)
    (hptr : isPointerName pfx = true) (hnb : '[' ∉ pfx)
    (hdig : ∀ d ∈ dims, ∀ c ∈ d, c.isDigit = true) :
    GetFieldSizeByName ⟨pfx ++ bracketGroups dims⟩ L =
      some (8 * (dims.map digitsVal).prod) := by
  have hall : ∀ x ∈ pfx, (fun c => decide ¬(c = '[')) x = true := by
    intro x hx
    simp only [decide_eq_true_eq]
    exact fun hc => hnb (hc ▸ hx)
  have hdrop : List.dropWhile (fun c => decide ¬(c = '[')) (pfx ++ bracketGroups dims) =
      List.dropWhile (fun c => decide ¬(c = '[')) (bracketGroups dims) :=
    dropWhile_append_of_all _ pfx (bracketGroups dims) hall
  unfold GetFieldSizeByName
  simp only [isPointerName_append pfx (bracketGroups dims) hptr, if_true, hdrop]
  cases dims with
  | nil => simp [bracketGroups]
  | cons d rest =>
    have hgroups : bracketGroups (d :: rest) = '[' :: (d ++ ']' :: bracketGroups rest) := by
      simp [bracketGroups, List.flatten]
    rw [hgroups, List.dropWhile_cons_of_neg (by simp), ← hgroups]
    have hfuel : (bracketGroups (d :: rest)).length ≤ (pfx ++ bracketGroups (d :: rest)).length + 1 := by
      simp only [List.length_append]
      omega
    rw [show (List.isEmpty (bracketGroups (d :: rest))) = false from by
      rw [hgroups]; rfl]
    simp only [Bool.false_eq_true, if_false]
    rw [sizeCountLoop_groups (d :: rest) ((pfx ++ bracketGroups (d :: rest)).length + 1) 1 hdig hfuel]
    simp

/-- Claim C3: in a well-formed catalog — the requested struct
resolves (first match) to `sd`, every field of `sd` has a defined
positive effective size, the decoded field names of `sd` are pairwise
distinct, and `sd`'s declared type length equals the total of its
field sizes — field offsets strictly increase along the declared
field order, and the total of the effective sizes equals the struct
size reported for `S` (its declared type byte length). -/
theorem C3_layout (cat : Catalog) (S : String) (sd : StructDesc)
    (hfind : findStruct cat S = some sd)
    (hpos : ∀ fd ∈ sd.fields, ∃ s, fieldSize cat fd = some s ∧ 0 < s)
    (hnodup : (sd.fields.map (decName cat)).Nodup)
    (hlen : sumFieldSizes cat sd.fields =
      some ((cat.typeArray.getD sd.typeIndex ⟨"", 0⟩).length)) :
    (∀ (j k : Nat) (hj : j < sd.fields.length) (hk : k < sd.fields.length), j < k →
      ∃ oj ok, GetFieldOffset cat S (decName cat (sd.fields.get ⟨j, hj⟩)) = some oj ∧
        GetFieldOffset cat S (decName cat (sd.fields.get ⟨k, hk⟩)) = some ok ∧ oj < ok) ∧
    sumFieldSizes cat sd.fields = some (GetStructSizeByName cat S) := by
  have hne : ∀ (i1 i2 : Nat) (h1 : i1 < sd.fields.length) (h2 : i2 < sd.fields.length),
      i1 ≠ i2 → decName cat (sd.fields.get ⟨i1, h1⟩) ≠ decName cat (sd.fields.get ⟨i2, h2⟩) := by
    intro i1 i2 h1 h2 hip heq
    have hmap : (sd.fields.map (decName cat)).get ⟨i1, by simpa using h1⟩ =
        (sd.fields.map (decName cat)).get ⟨i2, by simpa using h2⟩ := by
      simpa [List.get_map] using heq
    have := (List.Nodup.get_inj_iff hnodup).mp hmap
    exact hip (congrArg Fin.val this)
  constructor
  · intro j k hj hk hjk
    obtain ⟨oj, ok, hoj, hok, hlt⟩ :=
      sumFieldSizes_take_strict cat sd.fields hpos j k hjk (Nat.le_of_lt hk)
    refine ⟨oj, ok, ?_, ?_, hlt⟩
    · unfold GetFieldOffset
      rw [hfind]
      show fieldOffsetLoop cat (decName cat (sd.fields.get ⟨j, hj⟩)) sd.fields = some oj
      rw [fieldOffsetLoop_at cat sd.fields j hj
        (fun i hi => hne i j (Nat.lt_trans hi hj) hj (Nat.ne_of_lt hi))]
      exact hoj
    · unfold GetFieldOffset
      rw [hfind]
      show fieldOffsetLoop cat (decName cat (sd.fields.get ⟨k, hk⟩)) sd.fields = some ok
      rw [fieldOffsetLoop_at cat sd.fields k hk
        (fun i hi => hne i k (Nat.lt_trans hi hk) hk (Nat.ne_of_lt hi))]
      exact hok
  · unfold GetStructSizeByName
    rw [hfind]
    exact hlen

/-- Witness for C3: on the catalog of `struct Foo { int a; int b[2]; }`
(with `Foo` declared 12 bytes long) the two field offsets strictly
increase and the field sizes sum to the reported struct size. -/
theorem C3_layout_witness :
    (∃ oj ok, GetFieldOffset exCatFoo "Foo" "a" = some oj ∧
      GetFieldOffset exCatFoo "Foo" "b[2]" = some ok ∧ oj < ok) ∧
    sumFieldSizes exCatFoo [⟨1, 0⟩, ⟨1, 1⟩] = some (GetStructSizeByName exCatFoo "Foo") := by
  have hpos : ∀ fd ∈ ((⟨0, [⟨1, 0⟩, ⟨1, 1⟩]⟩ : StructDesc)).fields,
      ∃ s, fieldSize exCatFoo fd = some s ∧ 0 < s := by
    intro fd hfd
    rcases List.mem_cons.mp hfd with rfl | hfd'
    · exact ⟨4, by decide, by decide⟩
    · rcases List.mem_cons.mp hfd' with rfl | hfd''
      · exact ⟨8, by decide, by decide⟩
      · cases hfd''
  have h := C3_layout exCatFoo "Foo" ⟨0, [⟨1, 0⟩, ⟨1, 1⟩]⟩ (by decide) hpos (by decide) (by decide)
  constructor
  · obtain ⟨oj, ok, h1, h2, hlt⟩ := h.1 0 1 (by decide) (by decide) (by decide)
    rw [show decName exCatFoo (([⟨1, 0⟩, ⟨1, 1⟩] : List FieldDesc).get ⟨0, by decide⟩) = "a"
      from by decide] at h1
    rw [show decName exCatFoo (([⟨1, 0⟩, ⟨1, 1⟩] : List FieldDesc).get ⟨1, by decide⟩) = "b[2]"
      from by decide] at h2
    exact ⟨oj, ok, h1, h2, hlt⟩
  · exact h.2

/-- Witness for C7: the pointer-to-array name "*data[3]" with
declared type length 4 occupies 8 × 3 = 24 bytes. -/
theorem C7_ptr_array_witness : GetFieldSizeByName "*data[3]" 4 = some 24 := by
  have h := C7_ptr_array ['*', 'd', 'a', 't', 'a'] [['3']] 4 (by decide) (by decide) (by decide)
  have hs : (⟨['*', 'd', 'a', 't', 'a'] ++ bracketGroups [['3']]⟩ : String) = "*data[3]" := by decide
  rw [hs] at h
  exact h.trans (by decide)

/-- Main invariant of the block loop: started in a state of finalized
owner groups `owners` plus a current owner `par` whose children so far
are also the trailing top-level entries, a successful run produces an
owner-grouped block array, and its stripped top-level sequence extends
the current one by exactly the flat chunk sequence read from `pos`. -/
theorem parseLoop_master (bytes : List Nat) :
    ∀ (fuel : Nat) (pos : Nat) (owners : List FileBlock) (par : FileBlock) (bs : List FileBlock),
      parseLoop bytes fuel pos (some (flattenOwners owners).length)
          (flattenOwners owners ++ par :: par.childBlocks.map bareToBlock) = some bs →
      GroupsOK owners → ¬ (par.desc.code = BlockDATA) →
      (∀ c ∈ par.childBlocks, c.desc.code = BlockDATA) →
      (∃ owners2, GroupsOK owners2 ∧ bs = flattenOwners owners2) ∧
      (∃ tail, specChunkSeq bytes fuel pos = some tail ∧
        bs.map stripBlock =
          (flattenOwners owners ++ par :: par.childBlocks.map bareToBlock).map stripBlock ++ tail) := by
  intro fuel
  induction fuel with
  | zero =>
    intro pos owners par bs h
    exact absurd h (by simp [parseLoop])
  | succ fuel ih =>
    intro pos owners par bs h hgo hpar hch
    by_cases hpos : pos < bytes.length
    case neg =>
      unfold parseLoop at h
      rw [if_neg hpos] at h
      have hbs := Option.some.inj h
      subst hbs
      refine ⟨⟨owners ++ [par], ?_, ?_⟩, ⟨[], ?_, ?_⟩⟩
      · refine GroupsOK_append hgo ?_
        intro p hp
        rw [List.mem_singleton] at hp
        subst hp
        exact ⟨hpar, hch⟩
      · rw [flattenOwners_append]
        simp [flattenOwners]
      · simp [specChunkSeq, hpos]
      · simp
    case pos =>
      unfold parseLoop at h
      rw [if_pos hpos] at h
      simp only [List.append_assoc, List.cons_append] at h
      by_cases hD : (blockAt bytes pos).desc.code = BlockDATA
      · rw [if_pos hD] at h
        rw [modifyIdx_append] at h
        have hb : bareToBlock (stripBlock (blockAt bytes pos)) = blockAt bytes pos :=
          bareToBlock_stripBlock _ rfl
        have hmap : List.map bareToBlock ((appendChild par (stripBlock (blockAt bytes pos))).childBlocks) =
            List.map bareToBlock par.childBlocks ++ [blockAt bytes pos] := by
          simp [appendChild, hb]
        rw [← hmap] at h
        have hch' : ∀ c ∈ (appendChild par (stripBlock (blockAt bytes pos))).childBlocks,
            c.desc.code = BlockDATA := by
          intro c hc
          rcases List.mem_append.mp hc with hc | hc
          · exact hch c hc
          · rw [List.mem_singleton] at hc
            subst hc
            exact hD
        obtain ⟨hgroups, tail', htail', hstrip⟩ :=
          ih (align4 (pos + 24 + (blockAt bytes pos).desc.size)) owners
            (appendChild par (stripBlock (blockAt bytes pos))) bs h hgo hpar hch'
        refine ⟨hgroups, ⟨stripBlock (blockAt bytes pos) :: tail', ?_, ?_⟩⟩
        · unfold specChunkSeq
          rw [if_pos hpos]
          rw [if_neg (show ¬ ((stripBlock (blockAt bytes pos)).desc.code = EOBMark) from by
            rw [show (stripBlock (blockAt bytes pos)).desc.code = BlockDATA from hD]; decide)]
          show (match specChunkSeq bytes fuel (align4 (pos + 24 + (blockAt bytes pos).desc.size)) with
            | none => none
            | some rest => some (stripBlock (blockAt bytes pos) :: rest)) =
              some (stripBlock (blockAt bytes pos) :: tail')
          rw [htail']
        · rw [hstrip]
          simp [appendChild, stripBlock, bareToBlock, map_strip_bare, List.append_assoc]
      · rw [if_neg hD] at h
        have hflat : flattenOwners (owners ++ [par]) =
            flattenOwners owners ++ par :: List.map bareToBlock par.childBlocks := by
          rw [flattenOwners_append]
          simp [flattenOwners]
        by_cases hE : (blockAt bytes pos).desc.code = EOBMark
        · rw [if_pos hE] at h
          have hbs := Option.some.inj h
          subst hbs
          refine ⟨⟨owners ++ [par, blockAt bytes pos], ?_, ?_⟩,
            ⟨[stripBlock (blockAt bytes pos)], ?_, ?_⟩⟩
          · refine GroupsOK_append hgo ?_
            intro p hp
            rcases List.mem_cons.mp hp with rfl | hp
            · exact ⟨hpar, hch⟩
            · rw [List.mem_singleton] at hp
              subst hp
              exact ⟨hD, by intro c hc; simp [blockAt] at hc⟩
          · rw [flattenOwners_append]
            simp [flattenOwners, blockAt]
          · unfold specChunkSeq
            rw [if_pos hpos]
            rw [if_pos (show (stripBlock (blockAt bytes pos)).desc.code = EOBMark from hE)]
          · simp
        · rw [if_neg hE] at h
          have hlen : (flattenOwners owners ++
                par :: (List.map bareToBlock par.childBlocks ++ [blockAt bytes pos])).length - 1 =
              (flattenOwners (owners ++ [par])).length := by
            rw [hflat]
            simp [List.length_append]
          have hacc : flattenOwners owners ++
                par :: (List.map bareToBlock par.childBlocks ++ [blockAt bytes pos]) =
              flattenOwners (owners ++ [par]) ++
                (blockAt bytes pos) :: List.map bareToBlock (blockAt bytes pos).childBlocks := by
            rw [hflat]
            simp [blockAt]
          rw [hlen, hacc] at h
          have hch' : ∀ c ∈ (blockAt bytes pos).childBlocks, c.desc.code = BlockDATA := by
            intro c hc
            simp [blockAt] at hc
          obtain ⟨hgroups, tail', htail', hstrip⟩ :=
            ih (align4 (pos + 24 + (blockAt bytes pos).desc.size)) (owners ++ [par])
              (blockAt bytes pos) bs h
              (GroupsOK_append hgo (by
                intro p hp
                rw [List.mem_singleton] at hp
                subst hp
                exact ⟨hpar, hch⟩)) hD hch'
          refine ⟨hgroups, ⟨stripBlock (blockAt bytes pos) :: tail', ?_, ?_⟩⟩
          · unfold specChunkSeq
            rw [if_pos hpos]
            rw [if_neg (show ¬ ((stripBlock (blockAt bytes pos)).desc.code = EOBMark) from hE)]
            show (match specChunkSeq bytes fuel (align4 (pos + 24 + (blockAt bytes pos).desc.size)) with
              | none => none
              | some rest => some (stripBlock (blockAt bytes pos) :: rest)) =
                some (stripBlock (blockAt bytes pos) :: tail')
            rw [htail']
          · rw [hstrip, hflat]
            simp [blockAt, List.append_assoc]

/-- The block loop started in its initial state (no owner yet, empty
array) produces an owner-grouped block array whose stripped form is
the flat file-order chunk sequence. -/
theorem parseLoop_initial (bytes : List Nat) :
    ∀ (fuel pos : Nat) (bs : List FileBlock),
      parseLoop bytes fuel pos none [] = some bs →
      (∃ owners, GroupsOK owners ∧ bs = flattenOwners owners) ∧
      (∃ tail, specChunkSeq bytes fuel pos = some tail ∧ bs.map stripBlock = tail) := by
  intro fuel pos bs h
  cases fuel with
  | zero => exact absurd h (by simp [parseLoop])
  | succ fuel =>
    unfold parseLoop at h
    by_cases hpos : pos < bytes.length
    · rw [if_pos hpos] at h
      simp only [List.nil_append] at h
      by_cases hD : (blockAt bytes pos).desc.code = BlockDATA
      · rw [if_pos hD] at h
        exact Option.noConfusion h
      · rw [if_neg hD] at h
        by_cases hE : (blockAt bytes pos).desc.code = EOBMark
        · rw [if_pos hE] at h
          have hbs := Option.some.inj h
          subst hbs
          refine ⟨⟨[blockAt bytes pos], ?_, ?_⟩, ⟨[stripBlock (blockAt bytes pos)], ?_, ?_⟩⟩
          · intro p hp
            rw [List.mem_singleton] at hp
            subst hp
            exact ⟨hD, by intro c hc; simp [blockAt] at hc⟩
          · simp [flattenOwners, blockAt]
          · unfold specChunkSeq
            rw [if_pos hpos]
            rw [if_pos (show (stripBlock (blockAt bytes pos)).desc.code = EOBMark from hE)]
          · simp
        · rw [if_neg hE] at h
          have hch' : ∀ c ∈ (blockAt bytes pos).childBlocks, c.desc.code = BlockDATA := by
            intro c hc
            simp [blockAt] at hc
          obtain ⟨hgroups, tail', htail', hstrip⟩ :=
            parseLoop_master bytes fuel (align4 (pos + 24 + (blockAt bytes pos).desc.size)) []
              (blockAt bytes pos) bs h (by intro p hp; cases hp) hD hch'
          refine ⟨hgroups, ⟨stripBlock (blockAt bytes pos) :: tail', ?_, ?_⟩⟩
          · unfold specChunkSeq
            rw [if_pos hpos]
            rw [if_neg (show ¬ ((stripBlock (blockAt bytes pos)).desc.code = EOBMark) from hE)]
            show (match specChunkSeq bytes fuel (align4 (pos + 24 + (blockAt bytes pos).desc.size)) with
              | none => none
              | some rest => some (stripBlock (blockAt bytes pos) :: rest)) =
                some (stripBlock (blockAt bytes pos) :: tail')
            rw [htail']
          · rw [hstrip]
            simp [flattenOwners, blockAt]
    · rw [if_neg hpos] at h
      have hbs := Option.some.inj h
      subst hbs
      refine ⟨⟨[], ?_, rfl⟩, ⟨[], ?_, rfl⟩⟩
      · intro p hp
        cases hp
      · simp [specChunkSeq, hpos]

/-- Claim C2 (amended): in every successfully parsed container the
block array decomposes into owner groups — each generic "DATA" chunk
appears in exactly one `children` list, that of the nearest preceding
non-generic chunk, and is also kept as a top-level entry immediately
after that owner — and the top-level sequence preserves file order:
stripped of children it equals the flat file-order chunk sequence,
generic data chunks included (the claim's "contains no generic-data
chunks" is the one part that fails on the code). -/
theorem C2_grouping (bytes : List Nat) (bs : List FileBlock)
    (h : ParseFile bytes = Except.ok bs) :
    (∃ owners, GroupsOK owners ∧ bs = flattenOwners owners) ∧
    specChunkSeq bytes (bytes.length + 1) 12 = some (bs.map stripBlock) := by
  unfold ParseFile at h
  by_cases hm : bytes.take 7 = HeaderID
  case neg =>
    rw [if_neg hm] at h
    exact Except.noConfusion h
  case pos =>
    rw [if_pos hm] at h
    simp only [List.getD_eq_getElem?_getD] at h
    by_cases h7 : bytes[7]?.getD 0 = 95
    · simp [h7] at h
    · by_cases h8 : bytes[8]?.getD 0 = 118
      · simp only [h7, h8] at h
        cases hp : parseLoop bytes (bytes.length + 1) 12 none [] with
        | none => simp [hp] at h
        | some bs2 =>
          rw [hp] at h
          simp at h
          subst h
          obtain ⟨hgroups, tail, htail, hstrip⟩ :=
            parseLoop_initial bytes (bytes.length + 1) 12 bs2 hp
          exact ⟨hgroups, by rw [hstrip]; exact htail⟩
      · simp [h7, h8] at h

/-- Claim C2, counterexample.  Parsing `exBytes` (scene chunk, data
chunk, terminal chunk) yields a top-level sequence that contains the
generic data chunk `exBlockDATA` — the claim's "top-level sequence
contains no generic-data chunks" is false — while the same chunk also
sits in the scene chunk's children. -/
theorem C2_counterexample :
    ParseFile exBytes = Except.ok [exBlockSC, exBlockDATA, exBlockENDB] ∧
    exBlockDATA.desc.code = BlockDATA ∧
    exBlockSC.childBlocks = [stripBlock exBlockDATA] := by
  refine ⟨by rfl, by decide, by decide⟩

/-- Witness for C2: the amended grouping statement evaluated on the
concrete container `exBytes`. -/
theorem C2_grouping_witness :
    (∃ owners, GroupsOK owners ∧
      [exBlockSC, exBlockDATA, exBlockENDB] = flattenOwners owners) ∧
    specChunkSeq exBytes (exBytes.length + 1) 12 =
      some ([exBlockSC, exBlockDATA, exBlockENDB].map stripBlock) :=
  C2_grouping exBytes [exBlockSC, exBlockDATA, exBlockENDB] (by rfl)

end BlendExpl
